import Mathlib

/-!
Shallow embedding of the concurrent fetch engine of `gh-octoscope`
(`internal/api/throttled_gh_client.go` and the paginated list fetchers of
the base client), together with proofs of the claims of the specification.

Conventions of the embedding:
* Go `error` values that the retry executor classifies are the inductive
  `GHError`: `rateLimit reset` models `*github.RateLimitError` (carrying its
  `Rate.Reset` time), `abuseRateLimit retryAfter` models
  `*github.AbuseRateLimitError` (whose `RetryAfter` field is a nullable
  `*time.Duration`, hence `Option Int`), and `other code` models every other
  error value.
* Times and durations are integers (an abstract clock); sleeping is modelled
  by advancing the clock, and the instants at which the wrapped call is
  invoked are recorded in a trace.
* The remote server is modelled as an environment: a function from the
  attempt index to the outcome of that attempt (for the retry executor), or
  a list of page responses (for the paginated fetchers), or per-run fetch
  outcomes (for `processRun`).
* A Go runtime panic (nil-pointer dereference) is the distinguished outcome
  `ExecStatus.crashed`.
-/

namespace Octoscope

/-- Errors surfaced by the GitHub client, as classified by
`executeWithRateLimit`: a primary rate-limit error carrying a reset time, a
secondary (abuse) rate-limit error carrying an optional retry-after duration
(`RetryAfter *time.Duration` in go-github, `nil` when the server sent no
`Retry-After` header), or any other error. -/
inductive GHError where
  | rateLimit (reset : Int)
  | abuseRateLimit (retryAfter : Option Int)
  | other (code : Int)
deriving DecidableEq

/-- Outcome of one execution of `executeWithRateLimit`: success, failure with
the returned Go error, or a runtime panic (nil-pointer dereference). -/
inductive ExecStatus where
  | ok
  | failed (e : GHError)
  | crashed
deriving DecidableEq

/-- Observable behaviour of one execution of `executeWithRateLimit`: the
clock instants at which the wrapped function was invoked, in order, and the
final outcome. -/
structure ExecResult where
  callTimes : List Int
  status : ExecStatus
deriving DecidableEq

/-- The sleep performed after a failed attempt, expressed as the new clock
value, mirroring the branches of `executeWithRateLimit`
(`throttled_gh_client.go`):
* `RateLimitError`: `waitTime := time.Until(rateLimitErr.Rate.Reset.Time)`,
  sleep only `if waitTime > 0`;
* `AbuseRateLimitError` with non-nil `RetryAfter`: sleep `*abuseErr.RetryAfter`
  (the `else` exponential-backoff branch is unreachable for a non-nil pointer
  because `Duration.String()` is never the empty string — `0` prints `"0s"`);
* any other error: exponential backoff `c.retryBackoff * 2^retryCount`.
The nil-`RetryAfter` abuse case never reaches this function: the code panics
first (see `execAux`). -/
def nextTime (retryBackoff : Int) (e : GHError) (retryCount : Nat) (t : Int) : Int :=
  match e with
  | .rateLimit reset => if 0 < reset - t then t + (reset - t) else t
  | .abuseRateLimit (some d) => t + d
  | .abuseRateLimit none => t
  | .other _ => t + retryBackoff * 2 ^ retryCount

/-- The retry loop of `executeWithRateLimit`, with the remaining retry budget
made structural: `retriesLeft = retryLimit - retryCount`. Each call performs
one iteration of the Go `for retryCount = 0; retryCount <= c.retryLimit`
loop: invoke `fn` at clock `t` (the `Wait` of the rate limiter is modelled as
instantaneous; no context cancellation is modelled), return on success, and
otherwise classify the error. An `AbuseRateLimitError` whose `RetryAfter` is
nil crashes: the code evaluates `abuseErr.RetryAfter.String()` (both in the
log line and in the `!= ""` test), which dereferences a nil `*time.Duration`.
With budget left, sleep per `nextTime` and continue; with none left the loop
exits and the last error is returned. (The Go code still sleeps once before
exiting in the rate-limit branches; that final sleep precedes no further
call, so it is invisible in `callTimes`.) -/
def execAux (retryBackoff : Int) (fn : Nat → Option GHError) :
    Nat → Nat → Int → ExecResult
  | 0, retryCount, t =>
    match fn retryCount with
    | none => ⟨[t], .ok⟩
    | some (.abuseRateLimit none) => ⟨[t], .crashed⟩
    | some e => ⟨[t], .failed e⟩
  | n + 1, retryCount, t =>
    match fn retryCount with
    | none => ⟨[t], .ok⟩
    | some (.abuseRateLimit none) => ⟨[t], .crashed⟩
    | some e =>
      let r := execAux retryBackoff fn n (retryCount + 1) (nextTime retryBackoff e retryCount t)
      ⟨t :: r.callTimes, r.status⟩

/-- `executeWithRateLimit` of `throttledClient`: run the wrapped call with at
most `retryLimit` retries (so `retryLimit + 1` invocations), starting at
clock `t0`. `fn i` is the outcome of the `i`-th invocation (`none` =
success). -/
def executeWithRateLimit (retryLimit : Nat) (retryBackoff : Int)
    (fn : Nat → Option GHError) (t0 : Int) : ExecResult :=
  execAux retryBackoff fn retryLimit 0 t0

/-- Defaulting of `cfg.RetryLimit` in `NewThrottledClient`:
`if retryLimit <= 0 { retryLimit = 3 }`. -/
def defaultRetryLimit (cfg : Int) : Int :=
  if cfg ≤ 0 then 3 else cfg

/-- Defaulting of `cfg.MaxConcurrentRequests` in `NewThrottledClient`:
`if maxWorkers <= 0 { maxWorkers = 5 }`. -/
def defaultMaxWorkers (cfg : Int) : Int :=
  if cfg ≤ 0 then 5 else cfg

/-! ## Paginated list fetching (`client.ListWorkflows`, `client.ListWorkflowJobs`,
`client.ListRepositoryRuns`, `client.ListWorkflowJobsAttempt`)

All four follow the same shape: start from an empty collection with
`TotalCount: github.Int(0)`, request a page, append `page.items` to the
accumulated items, add the reported `TotalCount` of the page to the accumulated
total, stop when `resp.NextPage == 0`, otherwise request the next page; any
page error aborts the whole fetch with `return nil, err`. We model the server
as the finite list of responses it will give to the successive page requests. -/

/-- One page response: the reported total count of the page, its items, and the
`resp.NextPage` cursor (`0` means no further pages). -/
structure Page (α : Type) where
  totalCount : Int
  items : List α
  nextPage : Int
deriving DecidableEq

/-- An accumulated collection: models `github.Workflows`, `github.WorkflowRuns`
and `github.Jobs`, each of which is a reported total count plus an item
list. -/
structure Collection (α : Type) where
  totalCount : Int
  items : List α
deriving DecidableEq

/-- The page-draining loop shared by the list fetchers. `none` marks the one
situation the finite response list cannot represent: the server said more
pages exist (`NextPage ≠ 0` on the last supplied response) and the Go loop
would issue a further request. Every theorem below supplies enough responses,
so this case never arises there. -/
def drainGo {α : Type} : List (Except GHError (Page α)) → Collection α →
    Option (Except GHError (Collection α))
  | [], _ => none
  | .error e :: _, _ => some (.error e)
  | .ok page :: rest, acc =>
    let acc' : Collection α := ⟨acc.totalCount + page.totalCount, acc.items ++ page.items⟩
    if page.nextPage = 0 then some (.ok acc') else drainGo rest acc'

/-- A workflow: only the `ID` field (the key of the lookup map) matters to
the fetch engine. -/
structure Workflow where
  id : Int
deriving DecidableEq

/-- A workflow job, abstracted to its identifier: the fetch engine moves jobs
around without inspecting any other field. -/
abbrev WorkflowJob := Int

/-- A workflow run: its `ID`, its owning `WorkflowID`, and its `RunAttempt`
count. -/
structure WorkflowRun where
  id : Int
  workflowID : Int
  runAttempt : Int
deriving DecidableEq

/-- Per-run usage data (`github.WorkflowRunUsage`), abstracted to an opaque
billable figure: `processRun` stores it without inspecting it. -/
structure WorkflowRunUsage where
  billableMs : Int
deriving DecidableEq

/-- `client.ListWorkflows`: drain workflow pages starting from the empty
collection (`TotalCount: github.Int(0)`, `Workflows: []`). -/
def ListWorkflows (responses : List (Except GHError (Page Workflow))) :
    Option (Except GHError (Collection Workflow)) :=
  drainGo responses ⟨0, []⟩

/-- `client.ListWorkflowJobs`: drain job pages starting from the empty
collection (`TotalCount: github.Int(0)`, `Jobs: []`). -/
def ListWorkflowJobs (responses : List (Except GHError (Page WorkflowJob))) :
    Option (Except GHError (Collection WorkflowJob)) :=
  drainGo responses ⟨0, []⟩

/-! ## The per-run pipeline (`processRun`) and the aggregator
(`FetchRunsWithJobs`)

`processRun` performs its four fetches through `executeWithRateLimit`; each
such governed call either eventually succeeds with a value or exhausts into
an error, so at this level the per-run environment gives the final
outcome as an `Except`. The concurrent fan-out of `FetchRunsWithJobs`
(semaphore-gated goroutines feeding a result channel) is modelled
sequentially in spawn order: the fail-fast `select` on `errorChan` returns
the first observed pipeline error, and otherwise all streamed results are
collected. -/

/-- The aggregate record built per run (`RunWithJobs` in Go). Pointer-valued
fields that `processRun` may leave unset are `Option`s (`nil` in Go); the
`AttemptJobs` map, built by inserting keys `1, 2, ...` in order, is an
association list in insertion order. -/
structure RunWithJobs where
  run : WorkflowRun
  jobs : Option (List WorkflowJob)
  usageData : Option WorkflowRunUsage
  workflow : Option Workflow
  attemptJobs : List (Int × List WorkflowJob)
deriving DecidableEq

/-- Final outcomes of the three kinds of governed remote calls `processRun`
issues for one run: its usage fetch, its current-attempt job list fetch, and
one job list fetch per prior attempt number. -/
structure RunEnv where
  usage : Except GHError WorkflowRunUsage
  jobs : Except GHError (Collection WorkflowJob)
  attemptJobs : Int → Except GHError (Collection WorkflowJob)

/-- Lookup in the `workflowMap` of `FetchRunsWithJobs`, built by
`workflowMap[*wfl.ID] = wfl` over the fetched workflow list in order (a later
workflow with the same ID overwrites an earlier one). -/
def workflowLookup (ws : List Workflow) (id : Int) : Option Workflow :=
  ws.foldl (fun acc w => if w.id = id then some w else acc) none

/-- The prior-attempt numbers iterated by
`for i := 1; i < int(*run.RunAttempt); i++`, i.e. `[1, ..., runAttempt-1]`
(empty when `runAttempt ≤ 1`). -/
def attemptNumbers (runAttempt : Int) : List Int :=
  (List.range (runAttempt - 1).toNat).map (fun k => Int.ofNat k + 1)

/-- The prior-attempt loop of `processRun`: for each attempt number in order,
fetch the jobs of that attempt; on error return the bundle built so far together
with the error (`return result, err`), otherwise record
`result.AttemptJobs[i] = attemptJobs.Jobs` and continue. -/
def fetchAttemptJobs (env : RunEnv) (acc : RunWithJobs) :
    List Int → RunWithJobs × Option GHError
  | [] => (acc, none)
  | i :: rest =>
    match env.attemptJobs i with
    | .error e => (acc, some e)
    | .ok js =>
        fetchAttemptJobs env { acc with attemptJobs := acc.attemptJobs ++ [(i, js.items)] } rest

/-- `processRun`: build one `RunWithJobs` for `run`. Mirrors the Go function
line by line: start from a bundle holding only the run and an empty attempt
map; resolve the workflow from the lookup map and, when it is absent, return
the partial bundle with a nil error (after logging); then fetch usage,
current-attempt jobs, and — when `*run.RunAttempt > 1` — each prior
jobs of each prior attempt, returning the partial bundle plus the error as soon as any
governed call fails. -/
def processRun (env : RunEnv) (run : WorkflowRun) (workflows : List Workflow) :
    RunWithJobs × Option GHError :=
  let result : RunWithJobs :=
    { run := run, jobs := none, usageData := none, workflow := none, attemptJobs := [] }
  match workflowLookup workflows run.workflowID with
  | none => (result, none)
  | some wfl =>
    let result := { result with workflow := some wfl }
    match env.usage with
    | .error e => (result, some e)
    | .ok usage =>
      let result := { result with usageData := some usage }
      match env.jobs with
      | .error e => (result, some e)
      | .ok js =>
        let result := { result with jobs := some js.items }
        if 1 < run.runAttempt then
          fetchAttemptJobs env result (attemptNumbers run.runAttempt)
        else
          (result, none)

/-- Environment of one `FetchRunsWithJobs` execution: the final outcome of
the governed `ListWorkflows` call, of the governed `ListRepositoryRuns` call,
and the per-run fetch outcomes of each run. -/
structure FetchEnv where
  workflows : Except GHError (Collection Workflow)
  runs : Except GHError (Collection WorkflowRun)
  runEnv : WorkflowRun → RunEnv

/-- The fan-out/fan-in of `FetchRunsWithJobs` over the discovered runs,
sequentialised in spawn order: a pipeline returning a non-nil error makes the
aggregator return that error (fail-fast via `errorChan`); otherwise every
bundle of every pipeline is collected. -/
def processRuns (env : FetchEnv) (workflows : List Workflow) :
    List WorkflowRun → Except GHError (List RunWithJobs)
  | [] => .ok []
  | r :: rest =>
    match processRun (env.runEnv r) r workflows with
    | (_, some e) => .error e
    | (res, none) =>
      match processRuns env workflows rest with
      | .error e => .error e
      | .ok others => .ok (res :: others)

/-- `FetchRunsWithJobs`: fetch the workflow list, build the lookup map, fetch
the run list, return `[]RunWithJobs{}` immediately when the reported
`*runs.TotalCount == 0`, and otherwise process every run (concurrently in Go,
sequentialised here), failing fast on the first pipeline error. -/
def FetchRunsWithJobs (env : FetchEnv) : Except GHError (List RunWithJobs) :=
  match env.workflows with
  | .error e => .error e
  | .ok wfls =>
    match env.runs with
    | .error e => .error e
    | .ok runs =>
      if runs.totalCount = 0 then .ok []
      else processRuns env wfls.items runs.items

/-! ## The bounded dispatcher (`sem := make(chan struct{}, c.maxWorkers)`)

`FetchRunsWithJobs` gates its goroutines with a buffered channel of capacity
`maxWorkers`: `sem <- struct{}{}` before spawning a pipeline and
`defer func() { <-sem }()` when it finishes. We model the event
history: a send can only happen while fewer than `capacity` sends are
unmatched (a full buffered channel blocks the sender), and a receive only
while some send is unmatched. -/

/-- One event on the semaphore channel: a slot acquisition
(`sem <- struct{}{}`) or a release (`<-sem`). -/
inductive SemEvent where
  | acquire
  | release
deriving DecidableEq

/-- Number of pipelines holding a slot after a chronological event history:
acquisitions minus releases. -/
def inFlight (tr : List SemEvent) : Int :=
  tr.foldl (fun n e => match e with | .acquire => n + 1 | .release => n - 1) 0

/-- Event histories realisable on a buffered channel of capacity `W`: an
acquire can be appended only while the buffer is not full, a release only
while it is not empty. -/
inductive ValidTrace (W : Int) : List SemEvent → Prop where
  | nil : ValidTrace W []
  | acquire {tr : List SemEvent} : ValidTrace W tr → inFlight tr < W →
      ValidTrace W (tr ++ [SemEvent.acquire])
  | release {tr : List SemEvent} : ValidTrace W tr → 0 < inFlight tr →
      ValidTrace W (tr ++ [SemEvent.release])

/-- A response sequence that the Go pagination loop drains completely: at
least one page, every page before the last announces a further page
(`NextPage ≠ 0`), and the last page announces none (`NextPage = 0`). -/
def drainsAll {α : Type} : List (Page α) → Bool
  | [] => false
  | [p] => p.nextPage == 0
  | p :: rest => p.nextPage != 0 && drainsAll rest

/-! ## Helper lemmas -/

theorem execAux_fn_none {backoff : Int} {fn : Nat → Option GHError} {rc : Nat} {t : Int}
    (h : fn rc = none) : ∀ n, execAux backoff fn n rc t = ⟨[t], .ok⟩
  | 0 => by simp [execAux, h]
  | _ + 1 => by simp [execAux, h]

theorem execAux_other_exhausts (backoff : Int) (fn : Nat → Option GHError) (c : Nat → Int) :
    ∀ (n rc : Nat) (t : Int),
      (∀ k, k ≤ n → fn (rc + k) = some (.other (c (rc + k)))) →
      (execAux backoff fn n rc t).status = .failed (.other (c (rc + n))) ∧
      (execAux backoff fn n rc t).callTimes.length = n + 1 := by
  intro n
  induction n with
  | zero =>
    intro rc t h
    have h0 := h 0 (Nat.le_refl 0)
    simp only [Nat.add_zero] at h0 ⊢
    simp [execAux, h0]
  | succ m ih =>
    intro rc t h
    have h0 := h 0 (Nat.zero_le _)
    simp only [Nat.add_zero] at h0
    have hrec := ih (rc + 1) (nextTime backoff (.other (c rc)) rc t)
      (fun k hk => by
        have := h (k + 1) (by omega)
        simpa [Nat.add_assoc, Nat.add_comm 1 k] using this)
    simp only [execAux, h0]
    refine ⟨?_, ?_⟩
    · have : rc + 1 + m = rc + (m + 1) := by omega
      simpa [this] using hrec.1
    · simpa using hrec.2

theorem execAux_transient_then_ok (backoff : Int) (fn : Nat → Option GHError) :
    ∀ (N n rc : Nat) (t : Int), N ≤ n →
      (∀ k, k < N → ∃ cc, fn (rc + k) = some (.other cc)) →
      fn (rc + N) = none →
      (execAux backoff fn n rc t).status = .ok ∧
      (execAux backoff fn n rc t).callTimes.length = N + 1 := by
  intro N
  induction N with
  | zero =>
    intro n rc t _ _ hok
    simp only [Nat.add_zero] at hok
    rw [execAux_fn_none hok n]
    exact ⟨rfl, rfl⟩
  | succ m ih =>
    intro n rc t hle hfail hok
    obtain ⟨n, rfl⟩ : ∃ k, n = k + 1 := ⟨n - 1, by omega⟩
    obtain ⟨cc, h0⟩ := hfail 0 (Nat.succ_pos m)
    simp only [Nat.add_zero] at h0
    have hrec := ih n (rc + 1) (nextTime backoff (.other cc) rc t) (by omega)
      (fun k hk => by
        obtain ⟨dd, hdd⟩ := hfail (k + 1) (by omega)
        exact ⟨dd, by simpa [Nat.add_assoc, Nat.add_comm 1 k] using hdd⟩)
      (by simpa [Nat.add_assoc, Nat.add_comm 1 m] using hok)
    simp only [execAux, h0]
    exact ⟨by simpa using hrec.1, by simpa using hrec.2⟩

theorem nextTime_rateLimit (backoff T : Int) (rc : Nat) (t : Int) :
    nextTime backoff (.rateLimit T) rc t = max t T := by
  simp only [nextTime]
  split <;> omega

/-! ## Claims about the retrying request executor -/

/-- C2 (counterexample): a permanent client error — modelled as the
non-rate-limit error `GHError.other 7` on every attempt — is NOT returned
immediately after the first invocation: with the default retry limit 3 the
wrapped call is invoked 4 times before the error is returned. -/
theorem c2_counterexample :
    (executeWithRateLimit 3 1 (fun _ => some (.other 7)) 0).callTimes.length = 4 ∧
    (executeWithRateLimit 3 1 (fun _ => some (.other 7)) 0).status = .failed (.other 7) := by
  decide

/-- C2 (amended): `executeWithRateLimit` has no non-retryable classification:
every error that is neither a primary nor a secondary rate-limit error is
treated as transient and retried with exponential backoff, so a permanently
failing call is invoked `retryLimit + 1` times and the last error is then
returned. -/
theorem c2_amended_generic_error_retried (retryLimit : Nat) (backoff t0 : Int)
    (fn : Nat → Option GHError) (c : Nat → Int)
    (hfn : ∀ i, fn i = some (.other (c i))) :
    (executeWithRateLimit retryLimit backoff fn t0).callTimes.length = retryLimit + 1 ∧
    (executeWithRateLimit retryLimit backoff fn t0).status = .failed (.other (c retryLimit)) := by
  have h := execAux_other_exhausts backoff fn c retryLimit 0 t0 (fun k _ => by simpa using hfn k)
  exact ⟨h.2, by simpa using h.1⟩

/-- C2 (witness): the amended theorem applied at retry limit 1 and the
constant failing call `GHError.other 5`. -/
theorem c2_amended_witness :
    (executeWithRateLimit 1 1 (fun _ => some (.other 5)) 0).callTimes.length = 2 ∧
    (executeWithRateLimit 1 1 (fun _ => some (.other 5)) 0).status = .failed (.other 5) :=
  c2_amended_generic_error_retried 1 1 0 (fun _ => some (.other 5)) (fun _ => 5) (fun _ => rfl)

/-- C3: the handling of a secondary/abuse rate-limit error is NOT total. A
call that fails with an `AbuseRateLimitError` whose `RetryAfter` is nil
crashes the executor (the Go code evaluates `abuseErr.RetryAfter.String()`
on a nil `*time.Duration`, a nil-pointer dereference) instead of falling
back to exponential backoff; with a present retry-after duration (9) the
executor sleeps exactly that duration and retries, so a single such failure
followed by a success yields `callTimes = [0, 9]` and overall success. -/
theorem c3_abuse_without_retry_after_crashes :
    (executeWithRateLimit 3 1 (fun _ => some (.abuseRateLimit none)) 0).status = .crashed ∧
    (executeWithRateLimit 3 1 (fun _ => some (.abuseRateLimit none)) 0).callTimes = [0] ∧
    executeWithRateLimit 3 1
        (fun i => if i = 0 then some (.abuseRateLimit (some 9)) else none) 0 = ⟨[0, 9], .ok⟩ := by
  decide

/-- C4 (counterexample): a primary rate-limit retry DOES consume a
retry-count increment. With the default retry limit 3, four consecutive
`RateLimitError`s (reset time 5) exhaust the budget and the operation fails
with the last rate-limit error after exactly 4 calls, even though the next
(fifth) call would have succeeded — refuting that the operation still
succeeds whenever subsequent calls succeed. -/
theorem c4_counterexample :
    (executeWithRateLimit 3 1 (fun i => if i < 4 then some (.rateLimit 5) else none) 0).status
        = .failed (.rateLimit 5) ∧
    (executeWithRateLimit 3 1 (fun i => if i < 4 then some (.rateLimit 5) else none) 0).callTimes
        = [0, 5, 5, 5] ∧
    (fun i : Nat => if i < 4 then some (GHError.rateLimit 5) else none) 4 = none := by
  decide

/-- C4 (amended): after a primary rate-limit error with reset time `T` the
executor sleeps until `max(now, T)`, so the next call occurs no earlier than
`T`; the retry consumes a retry-count increment like any other retry, so the
operation succeeds when a call succeeds within the budget — in particular a
single rate-limit failure followed by a success yields overall success with
exactly two calls, the second at `max(t0, T) ≥ T`. -/
theorem c4_amended_rate_limit_sleeps_until_reset (retryLimit : Nat) (backoff t0 T : Int)
    (fn : Nat → Option GHError)
    (h0 : fn 0 = some (.rateLimit T)) (h1 : fn 1 = none) (hlim : 1 ≤ retryLimit) :
    (executeWithRateLimit retryLimit backoff fn t0).status = .ok ∧
    (executeWithRateLimit retryLimit backoff fn t0).callTimes = [t0, max t0 T] ∧
    T ≤ max t0 T := by
  obtain ⟨m, rfl⟩ : ∃ m, retryLimit = m + 1 := ⟨retryLimit - 1, by omega⟩
  unfold executeWithRateLimit
  simp only [execAux, h0]
  rw [nextTime_rateLimit, execAux_fn_none h1 m]
  exact ⟨rfl, rfl, le_max_right t0 T⟩

/-- C4 (witness): the amended theorem applied at retry limit 1, start time 0
and reset time 10. -/
theorem c4_amended_witness :
    (executeWithRateLimit 1 1 (fun i => if i = 0 then some (.rateLimit 10) else none) 0).status
        = .ok ∧
    (executeWithRateLimit 1 1 (fun i => if i = 0 then some (.rateLimit 10) else none) 0).callTimes
        = [0, max 0 10] ∧
    (10 : Int) ≤ max 0 10 :=
  c4_amended_rate_limit_sleeps_until_reset 1 1 0 10 _ rfl rfl (le_refl 1)

/-- C5: for `N` consecutive transient (backoff-classified) failures of the
wrapped call, if `N ≤ retryLimit` the operation succeeds (with exactly
`N + 1` invocations), and if `N > retryLimit` the executor stops once the
limit is exhausted, having invoked the call `retryLimit + 1` times, and
returns the error of the last invocation; the retry limit defaults to 3 when
the configured value is non-positive. -/
theorem c5_retry_limit_behaviour (retryLimit : Nat) (backoff t0 : Int)
    (fn : Nat → Option GHError) (N : Nat) (c : Nat → Int)
    (hfail : ∀ i, i < N → fn i = some (.other (c i))) :
    (N ≤ retryLimit → fn N = none →
      (executeWithRateLimit retryLimit backoff fn t0).status = .ok ∧
      (executeWithRateLimit retryLimit backoff fn t0).callTimes.length = N + 1) ∧
    (retryLimit < N →
      (executeWithRateLimit retryLimit backoff fn t0).status = .failed (.other (c retryLimit)) ∧
      (executeWithRateLimit retryLimit backoff fn t0).callTimes.length = retryLimit + 1) ∧
    defaultRetryLimit 0 = 3 := by
  refine ⟨fun hle hok => ?_, fun hlt => ?_, by decide⟩
  · exact execAux_transient_then_ok backoff fn N retryLimit 0 t0 hle
      (fun k hk => ⟨c k, by simpa using hfail k hk⟩) (by simpa using hok)
  · have h := execAux_other_exhausts backoff fn c retryLimit 0 t0
      (fun k hk => by simpa using hfail k (by omega))
    exact ⟨by simpa using h.1, h.2⟩

/-- C5 (witness): two transient failures under retry limit 3, then success:
the operation succeeds after exactly three invocations. -/
theorem c5_witness :
    (executeWithRateLimit 3 1 (fun i => if i < 2 then some (.other 100) else none) 0).status
        = .ok ∧
    (executeWithRateLimit 3 1 (fun i => if i < 2 then some (.other 100) else none) 0).callTimes.length
        = 3 :=
  (c5_retry_limit_behaviour 3 1 0 (fun i => if i < 2 then some (.other 100) else none) 2
      (fun _ => 100) (fun i hi => by simp [hi])).1 (by omega) (by simp)

/-! ## Claims about the paginated list fetchers -/

theorem drainGo_cons_ok {α : Type} (page : Page α) (rest : List (Except GHError (Page α)))
    (acc : Collection α) :
    drainGo (.ok page :: rest) acc =
      (if page.nextPage = 0
        then some (.ok ⟨acc.totalCount + page.totalCount, acc.items ++ page.items⟩)
        else drainGo rest ⟨acc.totalCount + page.totalCount, acc.items ++ page.items⟩) := rfl

theorem drainGo_drainsAll {α : Type} :
    ∀ (pages : List (Page α)) (acc : Collection α), drainsAll pages = true →
      drainGo (pages.map Except.ok) acc =
        some (.ok ⟨acc.totalCount + (pages.map Page.totalCount).sum,
                   acc.items ++ (pages.map Page.items).flatten⟩) := by
  intro pages
  induction pages with
  | nil => intro acc h; simp [drainsAll] at h
  | cons p rest ih =>
    intro acc h
    cases rest with
    | nil =>
      have hp : p.nextPage = 0 := by simpa [drainsAll] using h
      rw [List.map_singleton, drainGo_cons_ok, if_pos hp]
      simp
    | cons q rest2 =>
      have hsplit : p.nextPage ≠ 0 ∧ drainsAll (q :: rest2) = true := by
        have hh := h
        simp only [drainsAll, Bool.and_eq_true, bne_iff_ne, ne_eq] at hh
        exact hh
      have hrec := ih ⟨acc.totalCount + p.totalCount, acc.items ++ p.items⟩ hsplit.2
      rw [List.map_cons, drainGo_cons_ok, if_neg hsplit.1, hrec]
      simp [add_assoc, List.append_assoc]

theorem drainGo_error {α : Type} :
    ∀ (good : List (Page α)) (e : GHError) (rest : List (Except GHError (Page α)))
      (acc : Collection α), (∀ p ∈ good, p.nextPage ≠ 0) →
      drainGo (good.map Except.ok ++ .error e :: rest) acc = some (.error e) := by
  intro good
  induction good with
  | nil => intro e rest acc _; simp [drainGo]
  | cons p ps ih =>
    intro e rest acc h
    have hp : p.nextPage ≠ 0 := h p (List.mem_cons_self p ps)
    simp only [List.map_cons, List.cons_append, drainGo, if_neg hp]
    exact ih e rest _ (fun q hq => h q (List.mem_cons_of_mem p hq))

/-- C6: draining `K` ok-pages of item sizes `s1..sK` yields a collection
whose item list has length `sum(s1..sK)` and whose reported total count is
the sum of the per-page reported counts; when each page reports a count
equal to its own item count (as the round-trip harness of the spec feeds
it), the reported total also matches the result length. Stated for both
`ListWorkflowJobs` and `ListWorkflows`. -/
theorem c6_pagination_round_trip (jp : List (Page WorkflowJob)) (wp : List (Page Workflow))
    (hj : drainsAll jp = true) (hw : drainsAll wp = true) :
    ∃ cj cw, ListWorkflowJobs (jp.map Except.ok) = some (.ok cj) ∧
      ListWorkflows (wp.map Except.ok) = some (.ok cw) ∧
      cj.items.length = (jp.map (fun p => p.items.length)).sum ∧
      cw.items.length = (wp.map (fun p => p.items.length)).sum ∧
      cj.totalCount = (jp.map Page.totalCount).sum ∧
      cw.totalCount = (wp.map Page.totalCount).sum ∧
      ((∀ p ∈ jp, p.totalCount = (p.items.length : Int)) →
        cj.totalCount = (cj.items.length : Int)) ∧
      ((∀ p ∈ wp, p.totalCount = (p.items.length : Int)) →
        cw.totalCount = (cw.items.length : Int)) := by
  refine ⟨⟨(jp.map Page.totalCount).sum, (jp.map Page.items).flatten⟩,
          ⟨(wp.map Page.totalCount).sum, (wp.map Page.items).flatten⟩, ?_, ?_, ?_, ?_, rfl, rfl,
          ?_, ?_⟩
  · simpa [Collection.mk.injEq] using drainGo_drainsAll jp ⟨0, []⟩ hj
  · simpa [Collection.mk.injEq] using drainGo_drainsAll wp ⟨0, []⟩ hw
  · simp [List.length_flatten, Function.comp_def]
  · simp [List.length_flatten, Function.comp_def]
  · intro hcons
    have heq : jp.map Page.totalCount = jp.map (fun p => (p.items.length : Int)) :=
      List.map_congr_left hcons
    rw [heq]
    simp [List.length_flatten, Function.comp_def, Nat.cast_list_sum, List.map_map]
  · intro hcons
    have heq : wp.map Page.totalCount = wp.map (fun p => (p.items.length : Int)) :=
      List.map_congr_left hcons
    rw [heq]
    simp [List.length_flatten, Function.comp_def, Nat.cast_list_sum, List.map_map]

/-- C6 (witness): two job pages of sizes 2 and 1 and one workflow page of
size 1, each reporting its own size: lengths are 3 and 1 and the reported
totals match. -/
theorem c6_witness :
    ∃ cj cw,
      ListWorkflowJobs [Except.ok ⟨2, [10, 11], 2⟩, Except.ok ⟨1, [12], 0⟩] = some (.ok cj) ∧
      ListWorkflows [Except.ok ⟨1, [⟨7⟩], 0⟩] = some (.ok cw) ∧
      cj.items.length = 3 ∧ cw.items.length = 1 ∧
      cj.totalCount = 3 ∧ cw.totalCount = 1 ∧
      cj.totalCount = (cj.items.length : Int) ∧ cw.totalCount = (cw.items.length : Int) := by
  obtain ⟨cj, cw, h1, h2, h3, h4, h5, h6, h7, h8⟩ :=
    c6_pagination_round_trip [⟨2, [10, 11], 2⟩, ⟨1, [12], 0⟩] [⟨1, [⟨7⟩], 0⟩]
      (by decide) (by decide)
  refine ⟨cj, cw, h1, h2, by simpa using h3, by simpa using h4, by simpa using h5,
    by simpa using h6, h7 ?_, h8 ?_⟩
  · intro p hp
    simp only [List.mem_cons, List.mem_singleton] at hp
    rcases hp with rfl | rfl | h
    · rfl
    · rfl
    · cases h
  · intro p hp
    simp only [List.mem_singleton] at hp
    subst hp; rfl

/-- C7: a page-request failure aborts the whole paginated fetch: when every
page before the failing request announces a further page and the failing
request returns error `e`, the fetcher returns exactly `.error e` — no
partial collection of the pages fetched before the failure is returned.
Stated for both `ListWorkflowJobs` and `ListWorkflows`. -/
theorem c7_page_error_aborts_fetch (jgood : List (Page WorkflowJob))
    (wgood : List (Page Workflow)) (e e2 : GHError)
    (jrest : List (Except GHError (Page WorkflowJob)))
    (wrest : List (Except GHError (Page Workflow)))
    (hj : ∀ p ∈ jgood, p.nextPage ≠ 0) (hw : ∀ p ∈ wgood, p.nextPage ≠ 0) :
    ListWorkflowJobs (jgood.map Except.ok ++ .error e :: jrest) = some (.error e) ∧
    ListWorkflows (wgood.map Except.ok ++ .error e2 :: wrest) = some (.error e2) :=
  ⟨drainGo_error jgood e jrest ⟨0, []⟩ hj, drainGo_error wgood e2 wrest ⟨0, []⟩ hw⟩

/-- C7 (witness): one successfully fetched job page followed by a failing
page request, and an immediately failing workflow page request. -/
theorem c7_witness :
    ListWorkflowJobs [Except.ok ⟨2, [10, 11], 2⟩, Except.error (.other 3)]
        = some (.error (.other 3)) ∧
    ListWorkflows [Except.error (.other 4)] = some (.error (.other 4)) := by
  have h := c7_page_error_aborts_fetch [⟨2, [10, 11], 2⟩] [] (.other 3) (.other 4) [] []
    (by intro p hp; simp only [List.mem_singleton] at hp; subst hp; decide)
    (by intro p hp; cases hp)
  simpa using h

/-! ## Claims about the per-run pipeline and the aggregator -/

theorem fetchAttemptJobs_cons (env : RunEnv) (acc : RunWithJobs) (i : Int) (rest : List Int) :
    fetchAttemptJobs env acc (i :: rest) =
      (match env.attemptJobs i with
        | .error e => (acc, some e)
        | .ok js =>
            fetchAttemptJobs env
              { acc with attemptJobs := acc.attemptJobs ++ [(i, js.items)] } rest) := rfl

theorem fetchAttemptJobs_all_ok (env : RunEnv) (g : Int → Collection WorkflowJob)
    (hg : ∀ i, env.attemptJobs i = .ok (g i)) :
    ∀ (l : List Int) (acc : RunWithJobs),
      fetchAttemptJobs env acc l =
        ({ acc with attemptJobs := acc.attemptJobs ++ l.map (fun i => (i, (g i).items)) }, none) := by
  intro l
  induction l with
  | nil => intro acc; simp [fetchAttemptJobs]
  | cons i rest ih =>
    intro acc
    simp only [fetchAttemptJobs_cons, hg i]
    rw [ih]
    simp

/-- C1: a run whose owning workflow identifier is absent from the lookup map
is NOT omitted from the result list. `processRun` returns the partial bundle
(only the run set; workflow, usage and jobs all nil) with a nil error, and
`FetchRunsWithJobs` appends it to the results next to the complete bundles
of the other runs: with workflow 7 known and a run owned by the unknown
workflow 42, the returned list has both bundles, the first one partial. The
code contradicts the spec (and the sequential sibling in `main.go`, which
skips such runs with `continue`, and the downstream consumer, which
dereferences `UsageData` of every returned bundle): a partial `RunBundle` is
exposed to the caller. -/
theorem c1_missing_workflow_partial_bundle_included :
    FetchRunsWithJobs
        ⟨.ok ⟨1, [⟨7⟩]⟩, .ok ⟨2, [⟨1, 42, 1⟩, ⟨2, 7, 1⟩]⟩,
          fun _ => ⟨.ok ⟨5⟩, .ok ⟨1, [9]⟩, fun _ => .ok ⟨0, []⟩⟩⟩ =
      .ok [⟨⟨1, 42, 1⟩, none, none, none, []⟩,
           ⟨⟨2, 7, 1⟩, some [9], some ⟨5⟩, some ⟨7⟩, []⟩] := by
  rfl

/-- C8: for a run with attempt count `A`, `processRun` (with every governed
fetch succeeding) returns a nil error and a bundle whose prior-attempt map
has exactly `(A - 1).toNat` entries keyed `1, ..., A-1` in order — so an
attempt count above 1 yields exactly `A - 1` prior-attempt job lists next to
the current-attempt list, and attempt count 1 yields an empty map. -/
theorem c8_prior_attempt_fetches (env : RunEnv) (run : WorkflowRun)
    (workflows : List Workflow) (wfl : Workflow) (u : WorkflowRunUsage)
    (js : Collection WorkflowJob) (g : Int → Collection WorkflowJob)
    (hw : workflowLookup workflows run.workflowID = some wfl)
    (hu : env.usage = .ok u) (hj : env.jobs = .ok js)
    (hg : ∀ i, env.attemptJobs i = .ok (g i)) :
    (processRun env run workflows).2 = none ∧
    (processRun env run workflows).1.attemptJobs.map Prod.fst = attemptNumbers run.runAttempt ∧
    (processRun env run workflows).1.attemptJobs.length = (run.runAttempt - 1).toNat ∧
    (run.runAttempt = 1 → (processRun env run workflows).1.attemptJobs = []) ∧
    (processRun env run workflows).1.jobs = some js.items := by
  have hlen : (attemptNumbers run.runAttempt).length = (run.runAttempt - 1).toNat := by
    unfold attemptNumbers
    rw [List.length_map, List.length_range]
  by_cases hA : 1 < run.runAttempt
  · have hrun : processRun env run workflows =
        ({ run := run, jobs := some js.items, usageData := some u, workflow := some wfl,
           attemptJobs := (attemptNumbers run.runAttempt).map (fun i => (i, (g i).items)) },
         none) := by
      simp only [processRun, hw, hu, hj, if_pos hA,
        fetchAttemptJobs_all_ok env g hg (attemptNumbers run.runAttempt)]
      simp
    rw [hrun]
    refine ⟨rfl, ?_, ?_, fun h1 => absurd h1 (by omega), rfl⟩
    · simp [List.map_map, Function.comp_def]
    · simp [hlen]
  · have hA1 : (run.runAttempt - 1).toNat = 0 := by omega
    have hrun : processRun env run workflows =
        ({ run := run, jobs := some js.items, usageData := some u, workflow := some wfl,
           attemptJobs := [] }, none) := by
      simp [processRun, hw, hu, hj, if_neg hA]
    rw [hrun]
    exact ⟨rfl, by simp [attemptNumbers, hA1], by simp [hA1], fun _ => rfl, rfl⟩

/-- C8 (witness): a run with attempt count 3 and all fetches succeeding
yields exactly 2 prior-attempt entries keyed 1 and 2, plus the
current-attempt list. -/
theorem c8_witness :
    (processRun ⟨.ok ⟨5⟩, .ok ⟨1, [7]⟩, fun i => .ok ⟨1, [i]⟩⟩ ⟨1, 42, 3⟩ [⟨42⟩]).2 = none ∧
    (processRun ⟨.ok ⟨5⟩, .ok ⟨1, [7]⟩, fun i => .ok ⟨1, [i]⟩⟩ ⟨1, 42, 3⟩
        [⟨42⟩]).1.attemptJobs.map Prod.fst = attemptNumbers 3 ∧
    (processRun ⟨.ok ⟨5⟩, .ok ⟨1, [7]⟩, fun i => .ok ⟨1, [i]⟩⟩ ⟨1, 42, 3⟩
        [⟨42⟩]).1.attemptJobs.length = ((3 : Int) - 1).toNat ∧
    ((3 : Int) = 1 →
      (processRun ⟨.ok ⟨5⟩, .ok ⟨1, [7]⟩, fun i => .ok ⟨1, [i]⟩⟩ ⟨1, 42, 3⟩
        [⟨42⟩]).1.attemptJobs = []) ∧
    (processRun ⟨.ok ⟨5⟩, .ok ⟨1, [7]⟩, fun i => .ok ⟨1, [i]⟩⟩ ⟨1, 42, 3⟩ [⟨42⟩]).1.jobs
        = some [7] := by
  have h := c8_prior_attempt_fetches ⟨.ok ⟨5⟩, .ok ⟨1, [7]⟩, fun i => .ok ⟨1, [i]⟩⟩
    ⟨1, 42, 3⟩ [⟨42⟩] ⟨42⟩ ⟨5⟩ ⟨1, [7]⟩ (fun i => ⟨1, [i]⟩) rfl rfl rfl (fun _ => rfl)
  exact ⟨h.1, h.2.1, h.2.2.1, h.2.2.2.1, h.2.2.2.2⟩

/-- C10: when the run list fetch succeeds and reports a total count of zero,
`FetchRunsWithJobs` returns the empty (in Go: non-nil, freshly allocated)
slice with a nil error, and issues no per-run fetches: the result is the
same for every per-run environment. -/
theorem c10_zero_total_count_short_circuits (env : FetchEnv) (wfls : Collection Workflow)
    (runs : Collection WorkflowRun) (hw : env.workflows = .ok wfls) (hr : env.runs = .ok runs)
    (h0 : runs.totalCount = 0) :
    FetchRunsWithJobs env = .ok [] ∧
    ∀ env2 : FetchEnv, env2.workflows = env.workflows → env2.runs = env.runs →
      FetchRunsWithJobs env2 = .ok [] := by
  constructor
  · simp [FetchRunsWithJobs, hw, hr, h0]
  · intro env2 hw2 hr2
    rw [hw] at hw2
    rw [hr] at hr2
    simp [FetchRunsWithJobs, hw2, hr2, h0]

/-- C10 (witness): a run list reporting total count zero (with a nonempty
workflow list) yields the empty result for two different per-run
environments. -/
theorem c10_witness :
    FetchRunsWithJobs
        ⟨.ok ⟨1, [⟨7⟩]⟩, .ok ⟨0, []⟩, fun _ => ⟨.ok ⟨5⟩, .ok ⟨1, [9]⟩, fun _ => .ok ⟨0, []⟩⟩⟩
      = .ok [] ∧
    FetchRunsWithJobs
        ⟨.ok ⟨1, [⟨7⟩]⟩, .ok ⟨0, []⟩,
          fun _ => ⟨.error (.other 1), .error (.other 2), fun _ => .error (.other 3)⟩⟩
      = .ok [] := by
  have h := c10_zero_total_count_short_circuits
    ⟨.ok ⟨1, [⟨7⟩]⟩, .ok ⟨0, []⟩, fun _ => ⟨.ok ⟨5⟩, .ok ⟨1, [9]⟩, fun _ => .ok ⟨0, []⟩⟩⟩
    ⟨1, [⟨7⟩]⟩ ⟨0, []⟩ rfl rfl rfl
  exact ⟨h.1, h.2 _ rfl rfl⟩

/-! ## The bounded-dispatcher claim -/

theorem defaultMaxWorkers_pos (cfg : Int) : 0 < defaultMaxWorkers cfg := by
  simp only [defaultMaxWorkers]
  split <;> omega

theorem inFlight_append_acquire (tr : List SemEvent) :
    inFlight (tr ++ [SemEvent.acquire]) = inFlight tr + 1 := by
  simp [inFlight, List.foldl_append]

theorem inFlight_append_release (tr : List SemEvent) :
    inFlight (tr ++ [SemEvent.release]) = inFlight tr - 1 := by
  simp [inFlight, List.foldl_append]

/-- C9: for any configured worker ceiling (defaulting to 5 when the
configured value is non-positive), every event history realisable on the
bounded-dispatcher semaphore channel keeps the number of simultaneously
executing run-fetch pipelines between 0 and the ceiling: acquiring blocks at
the ceiling and releasing happens exactly once per acquired slot. -/
theorem c9_worker_ceiling (cfgMax : Int) :
    ∀ tr : List SemEvent, ValidTrace (defaultMaxWorkers cfgMax) tr →
      (0 ≤ inFlight tr ∧ inFlight tr ≤ defaultMaxWorkers cfgMax) ∧
      (cfgMax ≤ 0 → defaultMaxWorkers cfgMax = 5) := by
  intro tr h
  refine ⟨?_, fun hc => by simp [defaultMaxWorkers, hc]⟩
  have hpos := defaultMaxWorkers_pos cfgMax
  induction h with
  | nil =>
    refine ⟨le_refl 0, ?_⟩
    simp only [inFlight, List.foldl_nil]
    omega
  | acquire hv hlt ih => rw [inFlight_append_acquire]; omega
  | release hv hrel ih => rw [inFlight_append_release]; omega

/-- C9 (witness): with the default ceiling (configured value 0, hence 5),
the history of three acquisitions and one release is realisable and keeps at
most 5 pipelines in flight. -/
theorem c9_witness :
    0 ≤ inFlight [SemEvent.acquire, SemEvent.acquire, SemEvent.release, SemEvent.acquire] ∧
    inFlight [SemEvent.acquire, SemEvent.acquire, SemEvent.release, SemEvent.acquire]
      ≤ defaultMaxWorkers 0 :=
  (c9_worker_ceiling 0
    [SemEvent.acquire, SemEvent.acquire, SemEvent.release, SemEvent.acquire]
    (ValidTrace.acquire
      (ValidTrace.release
        (ValidTrace.acquire (ValidTrace.acquire ValidTrace.nil (by decide)) (by decide))
        (by decide))
      (by decide))).1

end Octoscope
